import Mathlib

/-!
Verification of the communications / identity core of the
`decentraland/hammurabi-headless` repository against its natural-language
specification. Each TypeScript function relevant to the claims is shallowly
embedded as an executable Lean definition; theorems below settle the claims.

Modelling conventions:
- JavaScript strings are Lean `String`s; `String.prototype.toLowerCase` is
  modelled by `jsToLower`, which lower-cases the ASCII letters `A`..`Z`
  character-wise (the inputs of interest are ASCII).
- JavaScript numbers used as timestamps / versions / ticks are `Nat` or `Int`.
- `Map` objects are association lists whose `set` operation removes any
  previous binding for the key, so keys are never duplicated.
- Async functions are modelled by explicit state-passing; interleavings of
  `await` points are modelled as explicit event sequences.
-/

/-- Lower-casing of a single character as performed by the JavaScript
`toLowerCase` on ASCII input: `A`..`Z` (code points 65..90) map to
`a`..`z`, everything else is unchanged. -/
def jsCharLower (c : Char) : Char :=
  if 65 ≤ c.toNat ∧ c.toNat ≤ 90 then Char.ofNat (c.toNat + 32) else c

/-- Lower-casing of a string: `jsCharLower` mapped over the characters.
Models `String.prototype.toLowerCase` for the ASCII strings the code
handles. -/
def jsToLower (s : String) : String := ⟨s.data.map jsCharLower⟩

theorem toNat_ofNat_valid (n : Nat) (hv : Nat.isValidChar n) :
    (Char.ofNat n).toNat = n := by
  rw [Char.ofNat, dif_pos hv]
  rfl

theorem jsCharLower_idem (c : Char) :
    jsCharLower (jsCharLower c) = jsCharLower c := by
  unfold jsCharLower
  by_cases h : 65 ≤ c.toNat ∧ c.toNat ≤ 90
  · rw [if_pos h]
    have hv : Nat.isValidChar (c.toNat + 32) := by
      unfold Nat.isValidChar
      left; omega
    have ht : (Char.ofNat (c.toNat + 32)).toNat = c.toNat + 32 :=
      toNat_ofNat_valid _ hv
    rw [if_neg]
    rw [ht]; omega
  · rw [if_neg h, if_neg h]

theorem jsToLower_append (s t : String) :
    jsToLower (s ++ t) = jsToLower s ++ jsToLower t := by
  cases s; cases t
  simp [jsToLower, String.data]
  rfl

theorem jsToLower_idem (s : String) : jsToLower (jsToLower s) = jsToLower s := by
  cases s
  simp only [jsToLower, List.map_map]
  congr 1
  apply List.map_congr_left
  intro c _
  exact jsCharLower_idem c

namespace SignedFetch

/-- Header name carrying the signed metadata JSON
(`AUTH_METADATA_HEADER` in `signed-fetch.ts`). -/
def authMetadataHeader : String := "x-identity-metadata"

/-- Header name carrying the signature timestamp
(`AUTH_TIMESTAMP_HEADER` in `signed-fetch.ts`). -/
def authTimestampHeader : String := "x-identity-timestamp"

/-- Leading part of the per-link auth-chain header names
(`AUTH_CHAIN_HEADER_PREFIX` in `signed-fetch.ts`); the link index is
appended to it. -/
def authChainHeaderBase : String := "x-identity-auth-chain-"

/-- The string signed by `getAuthChainSignature` in `signed-fetch.ts`:
`[method.toLowerCase(), path.toLowerCase(), timestamp.toString(), metadata].join(':')`
followed by `.toLowerCase()` applied to the whole joined string. -/
def getAuthChainSignaturePayload (method path : String) (timestamp : Nat)
    (metadata : String) : String :=
  jsToLower
    (jsToLower method ++ ":" ++ jsToLower path ++ ":" ++ toString timestamp
      ++ ":" ++ metadata)

/-- Result record of `getAuthChainSignature`: the chain produced by the
`chainProvider` on the signed payload, plus the metadata string and the
timestamp, both returned unchanged. Chain links are modelled as their
JSON-serialized strings. -/
structure AuthChainSignature where
  authChain : List String
  metadata : String
  timestamp : Nat
  deriving Repr, DecidableEq

/-- Model of `getAuthChainSignature` (signed-fetch.ts lines 8-24); the
ambient `Date.now()` is passed explicitly as `timestamp`. -/
def getAuthChainSignature (method path metadata : String) (timestamp : Nat)
    (chainProvider : String → List String) : AuthChainSignature :=
  { authChain := chainProvider (getAuthChainSignaturePayload method path timestamp metadata)
    metadata := metadata
    timestamp := timestamp }

/-- Model of `getSignedHeaders` (signed-fetch.ts lines 26-41) on an
already-serialized metadata JSON string: one header per auth-chain link,
then the timestamp header, then the metadata header carrying
`signature.metadata`. -/
def getSignedHeaders (method path metadataJson : String) (timestamp : Nat)
    (chainProvider : String → List String) : List (String × String) :=
  let signature := getAuthChainSignature method path metadataJson timestamp chainProvider
  (signature.authChain.enum.map fun p => (authChainHeaderBase ++ toString p.1, p.2))
    ++ [(authTimestampHeader, toString signature.timestamp),
        (authMetadataHeader, signature.metadata)]

/-- Canonical string as described by the specification sentence for claim
C1: method and path lower-cased, the metadata JSON body left unchanged.
This definition follows the spec's words, to be compared with
`getAuthChainSignaturePayload`, which follows the source. -/
def specCanonicalString (method path : String) (timestamp : Nat)
    (metadata : String) : String :=
  jsToLower method ++ ":" ++ jsToLower path ++ ":" ++ toString timestamp
    ++ ":" ++ metadata

theorem length_append_ne {s t u : String}
    (h : u.length < s.length) : s ++ t ≠ u := by
  intro he
  apply_fun String.length at he
  rw [String.length_append] at he
  omega

theorem lookup_getSignedHeaders_metadata (method path metadataJson : String)
    (timestamp : Nat) (chainProvider : String → List String) :
    (getSignedHeaders method path metadataJson timestamp chainProvider).lookup
      authMetadataHeader = some metadataJson := by
  unfold getSignedHeaders
  simp only [getAuthChainSignature]
  induction (chainProvider (getAuthChainSignaturePayload method path timestamp
      metadataJson)).enum with
  | nil =>
    simp [List.lookup, authMetadataHeader, authTimestampHeader]
  | cons hd tl ih =>
    have hne : (authMetadataHeader == authChainHeaderBase ++ toString hd.1) = false := by
      rw [beq_eq_false_iff_ne]
      intro he
      exact length_append_ne (by decide) he.symm
    simp only [List.map_cons, List.cons_append, List.lookup, hne, List.append_eq]
    exact ih

theorem lookup_getSignedHeaders_timestamp (method path metadataJson : String)
    (timestamp : Nat) (chainProvider : String → List String) :
    (getSignedHeaders method path metadataJson timestamp chainProvider).lookup
      authTimestampHeader = some (toString timestamp) := by
  unfold getSignedHeaders
  simp only [getAuthChainSignature]
  induction (chainProvider (getAuthChainSignaturePayload method path timestamp
      metadataJson)).enum with
  | nil =>
    simp [List.lookup, authTimestampHeader]
  | cons hd tl ih =>
    have hne : (authTimestampHeader == authChainHeaderBase ++ toString hd.1) = false := by
      rw [beq_eq_false_iff_ne]
      intro he
      exact length_append_ne (by decide) he.symm
    simp only [List.map_cons, List.cons_append, List.lookup, hne, List.append_eq]
    exact ih

theorem payload_eq_lower_raw (m p : String) (ts : Nat) (md : String) :
    getAuthChainSignaturePayload m p ts md
      = jsToLower (m ++ ":" ++ p ++ ":" ++ toString ts ++ ":" ++ md) := by
  unfold getAuthChainSignaturePayload
  simp only [jsToLower_append, jsToLower_idem]

/-- Claim C1, counterexample: the payload signed by `getAuthChainSignature`
is NOT the canonical string in which only method and path are lower-cased
while the metadata JSON body is left unchanged — the code applies
`toLowerCase()` to the whole joined string, so for the metadata string
"Md" the signed payload differs from the claimed canonical string. -/
theorem C1_counterexample :
    getAuthChainSignaturePayload "GET" "/Scene" 7 "Md"
      ≠ specCanonicalString "GET" "/Scene" 7 "Md" := by
  decide

/-- Claim C1, amended: the payload signed by `getAuthChainSignature` is the
canonical string method:path:timestamp:metadataJSON lower-cased in its
entirety (the metadata JSON body included); the x-identity-metadata header
sent by `getSignedHeaders` carries the metadata JSON byte-for-byte and the
x-identity-timestamp header carries the timestamp, so the signed string is
reconstructible from the transmitted headers (together with the request's
method and path) by lower-casing the reassembled canonical string. -/
theorem C1_amended_signed_payload (method path metadataJson : String)
    (timestamp : Nat) (chainProvider : String → List String) :
    (getSignedHeaders method path metadataJson timestamp chainProvider).lookup
        authMetadataHeader = some metadataJson
    ∧ (getSignedHeaders method path metadataJson timestamp chainProvider).lookup
        authTimestampHeader = some (toString timestamp)
    ∧ getAuthChainSignaturePayload method path timestamp metadataJson
        = jsToLower (method ++ ":" ++ path ++ ":" ++ toString timestamp
            ++ ":" ++ metadataJson)
    ∧ getAuthChainSignaturePayload method path timestamp metadataJson
        = jsToLower (specCanonicalString method path timestamp metadataJson) := by
  refine ⟨lookup_getSignedHeaders_metadata _ _ _ _ _,
    lookup_getSignedHeaders_timestamp _ _ _ _ _,
    payload_eq_lower_raw _ _ _ _, ?_⟩
  unfold getAuthChainSignaturePayload specCanonicalString
  simp only [jsToLower_append, jsToLower_idem]

end SignedFetch

namespace Metadata

/-- Values produced by `JSON.parse`: null, booleans, numbers, strings,
arrays, and objects whose fields are ordered key/value pairs. Numeric
values are abstracted to `Int`; none of the sanitization logic inspects
the numeric value itself. -/
inductive JValue where
  | jnull
  | jbool (b : Bool)
  | jnum (n : Int)
  | jstr (s : String)
  | jarr (xs : List JValue)
  | jobj (kvs : List (String × JValue))
  deriving Repr

/-- Size cap `MAX_METADATA_SIZE` from signed-fetch.ts. -/
def MAX_METADATA_SIZE : Nat := 2000

/-- Key-count cap `MAX_METADATA_KEYS` from signed-fetch.ts. -/
def MAX_METADATA_KEYS : Nat := 20

/-- Depth cap `MAX_NESTING_DEPTH` from signed-fetch.ts. -/
def MAX_NESTING_DEPTH : Nat := 3

/-- Key-length cap `MAX_KEY_LENGTH` from signed-fetch.ts. -/
def MAX_KEY_LENGTH : Nat := 50

/-- Deny-listed keys `DANGEROUS_KEYS` from signed-fetch.ts. -/
def DANGEROUS_KEYS : List String := ["__proto__", "constructor", "prototype"]

mutual

/-- Model of `sanitizeObject` (signed-fetch.ts lines 49-110): depth check
first (over-deep values degrade to an empty object), primitives passed
through, arrays sanitized element-wise one level deeper, objects filtered
key by key. Inputs are `JSON.parse` results, so the `typeof obj !==
'object'` branch for functions/symbols/undefined is unreachable and the
sanitized value is never `undefined`. -/
def sanitizeObject (obj : JValue) (currentDepth : Nat) : JValue :=
  if currentDepth > MAX_NESTING_DEPTH then .jobj []
  else match obj with
    | .jnull => .jnull
    | .jbool b => .jbool b
    | .jnum n => .jnum n
    | .jstr s => .jstr s
    | .jarr xs => .jarr (sanitizeArr xs currentDepth)
    | .jobj kvs => .jobj (sanitizeKvs kvs currentDepth 0)

/-- Element-wise sanitization of an array's items, one level deeper, as
performed by the `obj.map((item) => sanitizeObject(item, currentDepth + 1))`
branch of `sanitizeObject`. -/
def sanitizeArr (xs : List JValue) (currentDepth : Nat) : List JValue :=
  match xs with
  | [] => []
  | x :: rest => sanitizeObject x (currentDepth + 1) :: sanitizeArr rest currentDepth

/-- The `for (const key in obj)` loop of `sanitizeObject`: deny-listed keys
are skipped (without counting), the loop breaks once `keyCount` reaches
`MAX_METADATA_KEYS`, overlong keys are skipped, and every kept value is
sanitized one level deeper. -/
def sanitizeKvs (kvs : List (String × JValue)) (currentDepth keyCount : Nat) :
    List (String × JValue) :=
  match kvs with
  | [] => []
  | (k, v) :: rest =>
    if k ∈ DANGEROUS_KEYS then sanitizeKvs rest currentDepth keyCount
    else if keyCount ≥ MAX_METADATA_KEYS then []
    else if k.length > MAX_KEY_LENGTH then sanitizeKvs rest currentDepth keyCount
    else (k, sanitizeObject v (currentDepth + 1))
      :: sanitizeKvs rest currentDepth (keyCount + 1)

end

/-- Model of `safeParseMetadata` (signed-fetch.ts lines 112-136). The raw
input string is abstracted to its length together with its `JSON.parse`
outcome (`none` when parsing throws, which the surrounding try/catch turns
into an empty object). Oversized payloads and non-object roots also degrade
to an empty object; an object root is recursively sanitized from depth 0. -/
def safeParseMetadata (metadataLength : Nat) (parsed : Option JValue) : JValue :=
  if metadataLength > MAX_METADATA_SIZE then .jobj []
  else
    match parsed with
    | none => .jobj []
    | some v =>
      match v with
      | .jobj kvs => sanitizeObject (.jobj kvs) 0
      | _ => .jobj []

/-- Whether a JSON value is an object at its root. -/
def isObj : JValue → Bool
  | .jobj _ => true
  | _ => false

mutual

/-- Nesting depth of a JSON value: primitives have depth 0, and an array or
object has depth one more than the maximal depth of its members (an empty
array or object counts as one level of nesting). -/
def jdepth : JValue → Nat
  | .jnull => 0
  | .jbool _ => 0
  | .jnum _ => 0
  | .jstr _ => 0
  | .jarr xs => 1 + jdepthList xs
  | .jobj kvs => 1 + jdepthKvs kvs

/-- Maximal nesting depth over a list of JSON values. -/
def jdepthList : List JValue → Nat
  | [] => 0
  | x :: rest => max (jdepth x) (jdepthList rest)

/-- Maximal nesting depth over an object's values. -/
def jdepthKvs : List (String × JValue) → Nat
  | [] => 0
  | (_, v) :: rest => max (jdepth v) (jdepthKvs rest)

end

mutual

/-- Whether a JSON value contains a deny-listed key at any depth. -/
def hasDangerousKey : JValue → Bool
  | .jarr xs => hasDangerousKeyList xs
  | .jobj kvs => hasDangerousKeyKvs kvs
  | _ => false

/-- Whether any element of a list contains a deny-listed key. -/
def hasDangerousKeyList : List JValue → Bool
  | [] => false
  | x :: rest => hasDangerousKey x || hasDangerousKeyList rest

/-- Whether an object's own keys or any of its values contain a deny-listed
key. -/
def hasDangerousKeyKvs : List (String × JValue) → Bool
  | [] => false
  | (k, v) :: rest =>
    decide (k ∈ DANGEROUS_KEYS) || hasDangerousKey v || hasDangerousKeyKvs rest

end

mutual

theorem sanitize_no_danger (v : JValue) (d : Nat) :
    hasDangerousKey (sanitizeObject v d) = false := by
  rw [sanitizeObject.eq_def]
  split
  · simp [hasDangerousKey, hasDangerousKeyKvs]
  · cases v with
    | jnull => simp [hasDangerousKey]
    | jbool b => simp [hasDangerousKey]
    | jnum n => simp [hasDangerousKey]
    | jstr s => simp [hasDangerousKey]
    | jarr xs =>
      simp only [hasDangerousKey]
      exact sanitizeArr_no_danger xs d
    | jobj kvs =>
      simp only [hasDangerousKey]
      exact sanitizeKvs_no_danger kvs d 0

theorem sanitizeArr_no_danger (xs : List JValue) (d : Nat) :
    hasDangerousKeyList (sanitizeArr xs d) = false := by
  rw [sanitizeArr.eq_def]
  cases xs with
  | nil => simp [hasDangerousKeyList]
  | cons x rest =>
    simp only [hasDangerousKeyList, Bool.or_eq_false_iff]
    exact ⟨sanitize_no_danger x (d + 1), sanitizeArr_no_danger rest d⟩

theorem sanitizeKvs_no_danger (kvs : List (String × JValue)) (d c : Nat) :
    hasDangerousKeyKvs (sanitizeKvs kvs d c) = false := by
  rw [sanitizeKvs.eq_def]
  cases kvs with
  | nil => simp [hasDangerousKeyKvs]
  | cons kv rest =>
    obtain ⟨k, v⟩ := kv
    by_cases h1 : k ∈ DANGEROUS_KEYS
    · simp only [if_pos h1]
      exact sanitizeKvs_no_danger rest d c
    · simp only [if_neg h1]
      by_cases h2 : c ≥ MAX_METADATA_KEYS
      · simp [if_pos h2, hasDangerousKeyKvs]
      · simp only [if_neg h2]
        by_cases h3 : k.length > MAX_KEY_LENGTH
        · simp only [if_pos h3]
          exact sanitizeKvs_no_danger rest d c
        · simp only [if_neg h3, hasDangerousKeyKvs, Bool.or_eq_false_iff,
            decide_eq_false_iff_not]
          exact ⟨⟨h1, sanitize_no_danger v (d + 1)⟩,
            sanitizeKvs_no_danger rest d (c + 1)⟩

end

mutual

theorem sanitize_depth_le (v : JValue) (d : Nat) :
    jdepth (sanitizeObject v d) ≤ max 1 (MAX_NESTING_DEPTH + 2 - d) := by
  rw [sanitizeObject.eq_def]
  split
  · simp [jdepth, jdepthKvs]
  · rename_i hd
    cases v with
    | jnull => simp [jdepth]
    | jbool b => simp [jdepth]
    | jnum n => simp [jdepth]
    | jstr s => simp [jdepth]
    | jarr xs =>
      simp only [jdepth]
      have h := sanitizeArr_depth_le xs d
      simp only [MAX_NESTING_DEPTH] at *
      omega
    | jobj kvs =>
      simp only [jdepth]
      have h := sanitizeKvs_depth_le kvs d 0
      simp only [MAX_NESTING_DEPTH] at *
      omega

theorem sanitizeArr_depth_le (xs : List JValue) (d : Nat) :
    jdepthList (sanitizeArr xs d) ≤ max 1 (MAX_NESTING_DEPTH + 1 - d) := by
  rw [sanitizeArr.eq_def]
  cases xs with
  | nil => simp [jdepthList]
  | cons x rest =>
    simp only [jdepthList]
    have h1 := sanitize_depth_le x (d + 1)
    have h2 := sanitizeArr_depth_le rest d
    simp only [MAX_NESTING_DEPTH] at *
    omega

theorem sanitizeKvs_depth_le (kvs : List (String × JValue)) (d c : Nat) :
    jdepthKvs (sanitizeKvs kvs d c) ≤ max 1 (MAX_NESTING_DEPTH + 1 - d) := by
  rw [sanitizeKvs.eq_def]
  cases kvs with
  | nil => simp [jdepthKvs]
  | cons kv rest =>
    obtain ⟨k, v⟩ := kv
    by_cases h1 : k ∈ DANGEROUS_KEYS
    · simp only [if_pos h1]
      exact sanitizeKvs_depth_le rest d c
    · simp only [if_neg h1]
      by_cases h2 : c ≥ MAX_METADATA_KEYS
      · simp [if_pos h2, jdepthKvs]
      · simp only [if_neg h2]
        by_cases h3 : k.length > MAX_KEY_LENGTH
        · simp only [if_pos h3]
          exact sanitizeKvs_depth_le rest d c
        · simp only [if_neg h3, jdepthKvs]
          have hv := sanitize_depth_le v (d + 1)
          have hr := sanitizeKvs_depth_le rest d (c + 1)
          simp only [MAX_NESTING_DEPTH] at *
          omega

end

theorem sanitizeObject_obj_isObj (kvs : List (String × JValue)) (d : Nat) :
    isObj (sanitizeObject (.jobj kvs) d) = true := by
  rw [sanitizeObject.eq_def]
  split
  · rfl
  · rfl

/-- Deeply nested metadata object used as the counterexample input for
claim C2: five levels of object nesting. -/
def deepInput : JValue :=
  .jobj [("a", .jobj [("b", .jobj [("c", .jobj [("d", .jobj [("e", .jnum 1)])])])])]

/-- Claim C2, counterexample: the output of `safeParseMetadata` can exceed
the configured maximum nesting depth `MAX_NESTING_DEPTH = 3`. On a
five-level-deep input object, values at recursion depth 4 are truncated to
empty objects rather than removed, and the returned structure still nests
objects five levels deep (depth 5 > 3). -/
theorem C2_counterexample :
    jdepth (safeParseMetadata 60 (some deepInput)) = 5
      ∧ ¬ jdepth (safeParseMetadata 60 (some deepInput)) ≤ MAX_NESTING_DEPTH := by
  have h : jdepth (safeParseMetadata 60 (some deepInput)) = 5 := by
    simp [safeParseMetadata, deepInput, sanitizeObject, sanitizeKvs,
      jdepth, jdepthKvs, MAX_NESTING_DEPTH, MAX_METADATA_SIZE,
      MAX_METADATA_KEYS, MAX_KEY_LENGTH, DANGEROUS_KEYS]
  exact ⟨h, by rw [h]; decide⟩

/-- Claim C2, amended: for every input string (abstracted to its length and
its parse outcome), `safeParseMetadata` returns a plain object without
raising; the returned structure never contains the keys __proto__,
constructor or prototype at any depth; and its nesting depth does not
exceed `MAX_NESTING_DEPTH + 2` (values at recursion depth beyond the
configured maximum are truncated to empty objects, which still occupy up to
two extra nesting levels). Structural problems degrade to an empty object
rather than an error. -/
theorem C2_amended_sanitization (metadataLength : Nat) (parsed : Option JValue) :
    isObj (safeParseMetadata metadataLength parsed) = true
    ∧ hasDangerousKey (safeParseMetadata metadataLength parsed) = false
    ∧ jdepth (safeParseMetadata metadataLength parsed) ≤ MAX_NESTING_DEPTH + 2 := by
  unfold safeParseMetadata
  split
  · exact ⟨rfl, rfl, by simp [jdepth, jdepthKvs, MAX_NESTING_DEPTH]⟩
  · match parsed with
    | none => exact ⟨rfl, rfl, by simp [jdepth, jdepthKvs, MAX_NESTING_DEPTH]⟩
    | some (.jobj kvs) =>
      refine ⟨sanitizeObject_obj_isObj kvs 0, sanitize_no_danger _ 0, ?_⟩
      have h := sanitize_depth_le (.jobj kvs) 0
      simp only [MAX_NESTING_DEPTH] at *
      omega
    | some .jnull => exact ⟨rfl, rfl, by simp [jdepth, jdepthKvs, MAX_NESTING_DEPTH]⟩
    | some (.jbool b) => exact ⟨rfl, rfl, by simp [jdepth, jdepthKvs, MAX_NESTING_DEPTH]⟩
    | some (.jnum n) => exact ⟨rfl, rfl, by simp [jdepth, jdepthKvs, MAX_NESTING_DEPTH]⟩
    | some (.jstr s) => exact ⟨rfl, rfl, by simp [jdepth, jdepthKvs, MAX_NESTING_DEPTH]⟩
    | some (.jarr xs) => exact ⟨rfl, rfl, by simp [jdepth, jdepthKvs, MAX_NESTING_DEPTH]⟩

end Metadata

namespace Transport

/-- The tagged message variants a wire packet can carry
(the `$case` values of `proto.Packet` used in CommsTransportWrapper.ts);
payload contents are irrelevant to the claims and are abstracted away. -/
inductive MessageCase where
  | position
  | scene
  | chat
  | voice
  | profileRequest
  | profileResponse
  | profileVersion
  deriving Repr, DecidableEq

/-- A `proto.Packet` object literal as passed to `sendMessage`: an optional
`message` variant and an optional `protocolVersion` field. `none` models a
key that is absent from the object literal, so the number of `some` fields
is the value of `Object.keys(packet).length`. -/
structure Packet where
  message : Option MessageCase
  protocolVersion : Option Nat
  deriving Repr, DecidableEq

/-- Number of own keys of the packet object literal
(`Object.keys(topicMessage).length` in `sendMessage`). -/
def packetKeyCount (p : Packet) : Nat :=
  (if p.message.isSome then 1 else 0) + (if p.protocolVersion.isSome then 1 else 0)

/-- What `sendMessage` hands to the underlying transport on success: the
serialized packet (serialization kept symbolic), the reliability flag and
the destination list. -/
structure SentFrame where
  packet : Packet
  reliable : Bool
  destination : List String
  deriving Repr, DecidableEq

/-- Model of `CommsTransportWrapper.sendMessage` (CommsTransportWrapper.ts
lines 161-168): throws exactly when the packet object literal has no keys,
otherwise encodes and forwards with the given reliability flag and
destination list. -/
def sendMessage (reliable : Bool) (topicMessage : Packet)
    (destination : List String) : Except String SentFrame :=
  if packetKeyCount topicMessage = 0 then Except.error "Invalid empty message"
  else Except.ok { packet := topicMessage, reliable := reliable, destination := destination }

/-- Whether a send attempt raised. -/
def isSendError : Except String SentFrame → Bool
  | Except.error _ => true
  | Except.ok _ => false

/-- Model of `sendPositionMessage`: position variant, not reliable,
broadcast. -/
def sendPositionMessage : Except String SentFrame :=
  sendMessage false ⟨some .position, some 0⟩ []

/-- Model of `sendParcelSceneMessage`: scene variant, protocol version 100,
not reliable, explicit destination. -/
def sendParcelSceneMessage (destination : List String) : Except String SentFrame :=
  sendMessage false ⟨some .scene, some 100⟩ destination

/-- Model of `sendProfileMessage`: profileVersion variant, not reliable. -/
def sendProfileMessage : Except String SentFrame :=
  sendMessage false ⟨some .profileVersion, some 0⟩ []

/-- Model of `sendProfileRequest`: profileRequest variant, not reliable. -/
def sendProfileRequest : Except String SentFrame :=
  sendMessage false ⟨some .profileRequest, some 0⟩ []

/-- Model of `sendProfileResponse`: profileResponse variant, not
reliable. -/
def sendProfileResponse : Except String SentFrame :=
  sendMessage false ⟨some .profileResponse, some 0⟩ []

/-- Model of `sendChatMessage`: chat variant, reliable. -/
def sendChatMessage : Except String SentFrame :=
  sendMessage true ⟨some .chat, some 0⟩ []

/-- Model of `sendVoiceMessage`: voice variant, not reliable. -/
def sendVoiceMessage : Except String SentFrame :=
  sendMessage false ⟨some .voice, some 0⟩ []

/-- Claim C3, counterexample: `sendMessage` does NOT raise whenever the
envelope carries no message variant. A packet object with a
`protocolVersion` key but no `message` key has one own key, so the
`Object.keys(topicMessage).length === 0` guard passes and the variant-less
packet is serialized and forwarded instead of being rejected. -/
theorem C3_counterexample :
    isSendError (sendMessage false ⟨none, some 0⟩ []) = false
      ∧ (⟨none, some 0⟩ : Packet).message = none := by
  exact ⟨rfl, rfl⟩

/-- Claim C3, amended: `sendMessage` raises if and only if the packet
object literal is completely empty (no own keys at all, message variant
and protocolVersion both absent); any packet with at least one key — even
one with no message variant — is serialized and forwarded unchanged with
the given reliability flag and destinations. The public send methods always
construct a packet with a message variant, with reliable = true exactly for
the chat variant and reliable = false for every other variant. -/
theorem C3_amended_sendMessage (reliable : Bool) (pkt : Packet)
    (destination : List String) :
    (isSendError (sendMessage reliable pkt destination) = true
      ↔ pkt.message = none ∧ pkt.protocolVersion = none)
    ∧ (isSendError (sendMessage reliable pkt destination) = false
      → sendMessage reliable pkt destination = Except.ok ⟨pkt, reliable, destination⟩)
    ∧ sendChatMessage = Except.ok ⟨⟨some .chat, some 0⟩, true, []⟩
    ∧ sendPositionMessage = Except.ok ⟨⟨some .position, some 0⟩, false, []⟩
    ∧ sendProfileMessage = Except.ok ⟨⟨some .profileVersion, some 0⟩, false, []⟩
    ∧ sendProfileRequest = Except.ok ⟨⟨some .profileRequest, some 0⟩, false, []⟩
    ∧ sendProfileResponse = Except.ok ⟨⟨some .profileResponse, some 0⟩, false, []⟩
    ∧ sendVoiceMessage = Except.ok ⟨⟨some .voice, some 0⟩, false, []⟩
    ∧ sendParcelSceneMessage destination = Except.ok ⟨⟨some .scene, some 100⟩, false, destination⟩ := by
  obtain ⟨m, v⟩ := pkt
  cases m <;> cases v <;>
    simp [sendMessage, isSendError, packetKeyCount, sendChatMessage,
      sendPositionMessage, sendProfileMessage, sendProfileRequest,
      sendProfileResponse, sendVoiceMessage, sendParcelSceneMessage]

/-- Claim C3, witness for the amended theorem at a concrete packet: the
fully empty packet raises and the one-key packet does not. -/
theorem C3_amended_witness :
    isSendError (sendMessage false ⟨none, none⟩ []) = true
      ∧ sendMessage true ⟨some .chat, some 0⟩ ["peer"]
          = Except.ok ⟨⟨some .chat, some 0⟩, true, ["peer"]⟩ := by
  refine ⟨?_, ?_⟩
  · exact (C3_amended_sendMessage false ⟨none, none⟩ []).1.mpr ⟨rfl, rfl⟩
  · exact (C3_amended_sendMessage true ⟨some .chat, some 0⟩ ["peer"]).2.1 rfl

/-- Connection status enum `RoomConnectionStatus` from
CommsTransportWrapper.ts. -/
inductive RoomConnectionStatus where
  | NONE
  | CONNECTING
  | CONNECTED
  | DISCONNECTED
  deriving Repr, DecidableEq

/-- Observable outcome of one `connect()` call: the final value of
`this.state`, the successive states assigned during the call in order, and
whether the underlying transport's `connect` was invoked and a
DISCONNECTION event emitted. -/
structure ConnectResult where
  finalState : RoomConnectionStatus
  stateTrace : List RoomConnectionStatus
  calledUnderlying : Bool
  disconnectionEmitted : Bool
  deriving Repr, DecidableEq

/-- Model of `CommsTransportWrapper.connect` (CommsTransportWrapper.ts
lines 49-60): a no-op in any state other than NONE; from NONE it assigns
CONNECTING, invokes the underlying transport's connect, and assigns
CONNECTED on success or DISCONNECTED (emitting a DISCONNECTION event) on
failure. -/
def connect (state : RoomConnectionStatus) (underlyingOk : Bool) : ConnectResult :=
  if state ≠ RoomConnectionStatus.NONE then
    ⟨state, [], false, false⟩
  else if underlyingOk then
    ⟨.CONNECTED, [.CONNECTING, .CONNECTED], true, false⟩
  else
    ⟨.DISCONNECTED, [.CONNECTING, .DISCONNECTED], true, true⟩

/-- Claim C8: `connect()` called in any state other than NONE returns
without changing the state or invoking the underlying transport; from NONE
it transitions to CONNECTING and then to CONNECTED if the underlying
connect succeeds, or to DISCONNECTED with a DISCONNECTION event if it
fails; each state is assigned at most once per connect attempt. -/
theorem C8_connect_transitions (state : RoomConnectionStatus) (underlyingOk : Bool) :
    (state ≠ RoomConnectionStatus.NONE → connect state underlyingOk = ⟨state, [], false, false⟩)
    ∧ (state = RoomConnectionStatus.NONE → underlyingOk = true →
        connect state underlyingOk = ⟨.CONNECTED, [.CONNECTING, .CONNECTED], true, false⟩)
    ∧ (state = RoomConnectionStatus.NONE → underlyingOk = false →
        connect state underlyingOk = ⟨.DISCONNECTED, [.CONNECTING, .DISCONNECTED], true, true⟩)
    ∧ (∀ s, ((connect state underlyingOk).stateTrace.count s) ≤ 1) := by
  cases state <;> cases underlyingOk <;>
    refine ⟨by intro h; simp_all [connect], by intro h1 h2; simp_all [connect],
      by intro h1 h2; simp_all [connect], ?_⟩ <;>
    intro s <;> cases s <;> simp [connect, List.count]

/-- Claim C8, witness: concrete evaluations of `connect` through the
theorem — idempotence at CONNECTED, the success path and the failure path
from NONE. -/
theorem C8_connect_witness :
    connect .CONNECTED true = ⟨.CONNECTED, [], false, false⟩
    ∧ connect .NONE true = ⟨.CONNECTED, [.CONNECTING, .CONNECTED], true, false⟩
    ∧ connect .NONE false = ⟨.DISCONNECTED, [.CONNECTING, .DISCONNECTED], true, true⟩ := by
  refine ⟨(C8_connect_transitions .CONNECTED true).1 (by decide),
    (C8_connect_transitions .NONE true).2.1 rfl rfl,
    (C8_connect_transitions .NONE false).2.2.1 rfl rfl⟩

end Transport

namespace ConnectAdapter

/-- Response body of the signed-login handshake (`SignedLoginResult` in
networked-profile-system.ts): a success field and a failure field overlaid
in one untagged structure, both optional. -/
structure SignedLoginResult where
  fixedAdapter : Option String
  message : Option String
  deriving Repr, DecidableEq

/-- A desired transport target as stored in the adapter's
`desiredTransports` atom: a connection url plus the scene id. -/
structure DesiredTransport where
  url : String
  sceneId : String
  deriving Repr, DecidableEq

/-- Split of a character list at the first colon, mirroring
`connStr.indexOf(':')` / `substring`: `none` when no colon occurs. -/
def splitCharsAtColon : List Char → Option (List Char × List Char)
  | [] => none
  | c :: rest =>
    if c = ':' then some ([], rest)
    else
      match splitCharsAtColon rest with
      | some (a, b) => some (c :: a, b)
      | none => none

/-- JavaScript split of a connection string into protocol and remainder:
`protocol = connStr.substring(0, connStr.indexOf(':'))` and
`url = connStr.substring(indexOf + 1)`; when there is no colon, `indexOf`
is -1, so the protocol is empty and the remainder is the whole string. -/
def splitConn (s : String) : String × String :=
  match splitCharsAtColon s.data with
  | some (a, b) => (⟨a⟩, ⟨b⟩)
  | none => ("", s)

/-- Whether the string `s` starts with the string `t`
(`String.prototype.startsWith`). -/
def strStarts (s t : String) : Bool := t.data.isPrefixOf s.data

/-- Error text thrown when the signed-login response is not ok or not an
object. -/
def handshakeFailText : String :=
  "There was an error acquiring the communications connection. Decentraland will try to connect to another realm"

/-- Leading part of the error text that embeds the server's `message`. -/
def acquireErrorHead : String :=
  "There was an error acquiring the communications connection: "

/-- Error text thrown when the signed-login response has neither a usable
`fixedAdapter` nor a `message`. -/
def unknownErrorText : String :=
  "An unknown error was detected while trying to connect to the selected realm."

/-- Leading part of the error text naming an unsupported protocol. -/
def noAdapterHead : String :=
  "A communications adapter could not be created for protocol="

/-- Model of `connectAdapter` (networked-profile-system.ts lines 164-250)
as a decision function from the connection string and, for the
signed-login branch, the handshake fetch outcome (`handshakeOk` models
`result.ok`; `response = none` models a non-object JSON body). The
returned value is the single desired transport target the adapter exposes;
errors carry the thrown message. -/
def connectAdapter (connStr sceneId : String) (handshakeOk : Bool)
    (response : Option SignedLoginResult) : Except String DesiredTransport :=
  let protocol := (splitConn connStr).1
  if protocol = "livekit" then Except.ok ⟨connStr, sceneId⟩
  else if protocol = "offline" then Except.ok ⟨"", sceneId⟩
  else if protocol = "ws-room" then Except.ok ⟨connStr, sceneId⟩
  else if protocol = "signed-login" then
    match response with
    | none => Except.error handshakeFailText
    | some r =>
      if handshakeOk = false then Except.error handshakeFailText
      else
        match r.fixedAdapter with
        | some fa =>
          if strStarts fa "signed-login:" = false then Except.ok ⟨fa, sceneId⟩
          else
            match r.message with
            | some m => Except.error (acquireErrorHead ++ m)
            | none => Except.error unknownErrorText
        | none =>
          match r.message with
          | some m => Except.error (acquireErrorHead ++ m)
          | none => Except.error unknownErrorText
  else Except.error (noAdapterHead ++ protocol)

/-- Claim C4, counterexample: when the signed-login response carries no
usable `fixedAdapter` and a string `message`, the error raised is NOT the
message verbatim — the code prefixes it with a fixed explanatory sentence,
so the error text differs from the message. -/
theorem C4_counterexample :
    connectAdapter "signed-login:u" "s" true (some ⟨none, some "boom"⟩)
        = Except.error "There was an error acquiring the communications connection: boom"
      ∧ "There was an error acquiring the communications connection: boom" ≠ "boom" := by
  exact ⟨rfl, by decide⟩

/-- Claim C4, amended: `connectAdapter` checks `fixedAdapter` before
`message`: a string `fixedAdapter` that does not start with
"signed-login:" becomes the desired transport target and no error is
raised even when `message` is also present; when `fixedAdapter` is absent
or is itself a signed-login: descriptor, a string `message` is embedded
verbatim in the raised error text after a fixed explanatory head, and
otherwise a generic handshake-failure error is raised; for a connection
descriptor whose protocol tag is none of livekit, ws-room, offline,
signed-login, an error naming the unsupported protocol is raised. -/
theorem C4_amended_connectAdapter (connStr sceneId : String)
    (r : SignedLoginResult) :
    ((splitConn connStr).1 = "signed-login" →
      ∀ fa, r.fixedAdapter = some fa → strStarts fa "signed-login:" = false →
        connectAdapter connStr sceneId true (some r) = Except.ok ⟨fa, sceneId⟩)
    ∧ ((splitConn connStr).1 = "signed-login" →
      (r.fixedAdapter = none ∨ ∃ fa, r.fixedAdapter = some fa ∧ strStarts fa "signed-login:" = true) →
      ∀ m, r.message = some m →
        connectAdapter connStr sceneId true (some r) = Except.error (acquireErrorHead ++ m))
    ∧ ((splitConn connStr).1 = "signed-login" →
      (r.fixedAdapter = none ∨ ∃ fa, r.fixedAdapter = some fa ∧ strStarts fa "signed-login:" = true) →
      r.message = none →
        connectAdapter connStr sceneId true (some r) = Except.error unknownErrorText)
    ∧ ((splitConn connStr).1 ∉ (["livekit", "offline", "ws-room", "signed-login"] : List String) →
      ∀ handshakeOk response, connectAdapter connStr sceneId handshakeOk response
        = Except.error (noAdapterHead ++ (splitConn connStr).1)) := by
  refine ⟨?_, ?_, ?_, ?_⟩
  · intro hp fa hfa hs
    simp [connectAdapter, hp, hfa, hs]
  · intro hp hfix m hm
    rcases hfix with hnone | ⟨fa, hfa, hs⟩
    · simp [connectAdapter, hp, hnone, hm]
    · simp [connectAdapter, hp, hfa, hs, hm]
  · intro hp hfix hm
    rcases hfix with hnone | ⟨fa, hfa, hs⟩
    · simp [connectAdapter, hp, hnone, hm]
    · simp [connectAdapter, hp, hfa, hs, hm]
  · intro hp handshakeOk response
    simp only [List.mem_cons, List.mem_singleton, not_or] at hp
    obtain ⟨h1, h2, h3, h4, -⟩ := hp
    simp [connectAdapter, h1, h2, h3, h4]

/-- Claim C4, witness for the amended theorem at concrete inputs: success
despite a message, message-prefixed failure, generic failure, and the
unsupported-protocol error. -/
theorem C4_amended_witness :
    connectAdapter "signed-login:u" "s" true (some ⟨some "ws-room:w", some "ignored"⟩)
        = Except.ok ⟨"ws-room:w", "s"⟩
    ∧ connectAdapter "signed-login:u" "s" true (some ⟨some "signed-login:v", some "boom"⟩)
        = Except.error (acquireErrorHead ++ "boom")
    ∧ connectAdapter "signed-login:u" "s" true (some ⟨none, none⟩)
        = Except.error unknownErrorText
    ∧ connectAdapter "mystery:u" "s" true none
        = Except.error (noAdapterHead ++ "mystery") := by
  refine ⟨?_, ?_, ?_, ?_⟩
  · exact (C4_amended_connectAdapter "signed-login:u" "s" ⟨some "ws-room:w", some "ignored"⟩).1
      (by decide) "ws-room:w" rfl (by decide)
  · exact (C4_amended_connectAdapter "signed-login:u" "s" ⟨some "signed-login:v", some "boom"⟩).2.1
      (by decide) (Or.inr ⟨"signed-login:v", rfl, by decide⟩) "boom" rfl
  · exact (C4_amended_connectAdapter "signed-login:u" "s" ⟨none, none⟩).2.2.1
      (by decide) (Or.inl rfl) rfl
  · exact (C4_amended_connectAdapter "mystery:u" "s" ⟨none, none⟩).2.2.2
      (by decide) true none

end ConnectAdapter

namespace RateLimiter

/-- Broadcast frequency cap `MAX_AVATARS_PER_SECOND` from
networked-profile-system.ts. -/
def MAX_AVATARS_PER_SECOND : Nat := 2

/-- Minimum interval between accepted broadcasts:
`1000 / MAX_AVATARS_PER_SECOND` milliseconds. -/
def minIntervalMs : Nat := 1000 / MAX_AVATARS_PER_SECOND

/-- Model of `shouldDiscard` (networked-profile-system.ts lines 15-22) on
an injectable monotonic clock: given the stored `lastReport` and the
current reading `now` (with `now ≥ lastReport`, clock monotonicity),
returns whether the call is discarded together with the new `lastReport`
(unchanged on discard, `now` on acceptance). -/
def shouldDiscard (lastReport now : Nat) : Bool × Nat :=
  if now - lastReport < minIntervalMs then (true, lastReport) else (false, now)

/-- Number of accepted (non-discarded) broadcasts over a sequence of clock
readings at which `lateUpdate` runs its `shouldDiscard` gate, starting from
a given `lastReport` state. -/
def acceptedCount (lastReport : Nat) : List Nat → Nat
  | [] => 0
  | t :: ts =>
    let r := shouldDiscard lastReport t
    if r.1 then acceptedCount r.2 ts else 1 + acceptedCount r.2 ts

/-- Clock readings of `n` calls spaced `delta` milliseconds apart starting
at `t0`. -/
def uniformTimes (t0 delta n : Nat) : List Nat :=
  (List.range n).map (fun i => t0 + i * delta)

theorem uniformTimes_succ (t0 delta n : Nat) :
    uniformTimes t0 delta (n + 1) = t0 :: uniformTimes (t0 + delta) delta n := by
  simp only [uniformTimes, List.range_succ_eq_map, List.map_cons, List.map_map]
  congr 1
  · simp
  · apply List.map_congr_left
    intro i _
    simp only [Function.comp, Nat.succ_mul]
    ring

theorem acceptedCount_cons_accept (lr t : Nat) (ts : List Nat)
    (h : minIntervalMs ≤ t - lr) :
    acceptedCount lr (t :: ts) = 1 + acceptedCount t ts := by
  have hc : ¬ (t - lr < minIntervalMs) := by omega
  simp [acceptedCount, shouldDiscard, hc]

theorem acceptedCount_cons_discard (lr t : Nat) (ts : List Nat)
    (h : t - lr < minIntervalMs) :
    acceptedCount lr (t :: ts) = acceptedCount lr ts := by
  simp [acceptedCount, shouldDiscard, h]

theorem acceptedCount_phase (delta k : Nat) (hkd : 500 ≤ k * delta)
    (hk1 : (k - 1) * delta < 500) :
    ∀ m r t0, r < k →
      acceptedCount t0 (uniformTimes (t0 + (k - r) * delta) delta m)
        = if m ≤ r then 0 else (m - r - 1) / k + 1 := by
  have hkpos : 0 < k := by
    rcases Nat.eq_zero_or_pos k with h | h
    · subst h; simp at hkd
    · exact h
  intro m
  induction m with
  | zero =>
    intro r t0 _
    simp [uniformTimes, acceptedCount]
  | succ m ih =>
    intro r t0 hr
    rw [uniformTimes_succ]
    cases r with
    | zero =>
      rw [acceptedCount_cons_accept]
      · have hone : k - (k - 1) = 1 := by omega
        have harg : t0 + (k - 0) * delta + delta
            = (t0 + (k - 0) * delta) + (k - (k - 1)) * delta := by
          rw [hone, one_mul]
        rw [harg, ih (k - 1) (t0 + (k - 0) * delta) (by omega)]
        by_cases hm : m ≤ k - 1
        · rw [if_pos hm, if_neg (by omega)]
          have : m + 1 - 0 - 1 = m := by omega
          rw [this, Nat.div_eq_of_lt (by omega)]
        · rw [if_neg hm, if_neg (by omega)]
          have h1 : m - (k - 1) - 1 = m - k := by omega
          have h2 : m + 1 - 0 - 1 = m := by omega
          rw [h1, h2]
          have hdiv : m / k = (m - k) / k + 1 := by
            conv_lhs => rw [show m = m - k + k from by omega]
            rw [Nat.add_div_right _ hkpos]
          omega
      · have harg0 : t0 + (k - 0) * delta - t0 = k * delta := by simp
        rw [harg0]
        simp only [minIntervalMs, MAX_AVATARS_PER_SECOND]
        omega
    | succ r' =>
      rw [acceptedCount_cons_discard]
      · have harg : t0 + (k - (r' + 1)) * delta + delta = t0 + (k - r') * delta := by
          have h1 : k - r' = (k - (r' + 1)) + 1 := by omega
          rw [h1, Nat.succ_mul]
          omega
        rw [harg, ih r' t0 (by omega)]
        by_cases hm : m ≤ r'
        · rw [if_pos hm, if_pos (by omega)]
        · rw [if_neg hm, if_neg (by omega)]
          have : m + 1 - (r' + 1) - 1 = m - r' - 1 := by omega
          rw [this]
      · have hle : (k - (r' + 1)) * delta ≤ (k - 1) * delta :=
          Nat.mul_le_mul_right delta (by omega)
        have : t0 + (k - (r' + 1)) * delta - t0 = (k - (r' + 1)) * delta := by omega
        rw [this]
        simp only [minIntervalMs, MAX_AVATARS_PER_SECOND]
        omega

/-- Claim C7, counterexample: with creation at clock 0 and six calls at
500, 800, 1100, 1400, 1700, 2000 (spacing 300 ms < 500 ms), the limiter
accepts 3 broadcasts, while the claimed formula floor(elapsedMs / 500) + 1
with elapsedMs = 1500 yields 4 — the greedy reset of `lastReport` to the
accepting call's own timestamp drifts whenever the spacing does not divide
500. -/
theorem C7_counterexample :
    acceptedCount 0 (uniformTimes 500 300 6) = 3
      ∧ (2000 - 500) / 500 + 1 = 4
      ∧ (3 : Nat) ≠ 4 := by
  refine ⟨?_, by decide, by decide⟩
  decide

/-- Claim C7, amended: on an injectable monotonic clock, N ≥ 1 calls
spaced Δt < 500 ms apart (first call at least 500 ms after the limiter's
creation reading) accept exactly floor((N-1) / ceil(500/Δt)) + 1
broadcasts — the accepted calls are those whose index is a multiple of
ceil(500/Δt); this equals the claimed floor(elapsedMs/500) + 1 only when
Δt divides 500. Calls inside the minimum interval are discarded, not
queued. -/
theorem C7_amended_rate_limit (c t0 delta n : Nat) (hdpos : 0 < delta)
    (hdlt : delta < minIntervalMs) (hn : 1 ≤ n)
    (hfirst : c + minIntervalMs ≤ t0) :
    acceptedCount c (uniformTimes t0 delta n)
      = (n - 1) / ((minIntervalMs + delta - 1) / delta) + 1 := by
  have h500 : minIntervalMs = 500 := rfl
  rw [h500] at hdlt hfirst ⊢
  set k := (500 + delta - 1) / delta with hk
  have hdm := Nat.div_add_mod (500 + delta - 1) delta
  have hmod := Nat.mod_lt (500 + delta - 1) hdpos
  rw [← hk] at hdm
  have hsub : (k - 1) * delta = k * delta - delta := by
    rw [Nat.sub_mul, one_mul]
  have hmul : delta * k = k * delta := Nat.mul_comm _ _
  have hkd : 500 ≤ k * delta := by omega
  have hk1 : (k - 1) * delta < 500 := by omega
  have hkpos : 0 < k := by
    have h9 : delta ≤ 500 + delta - 1 := by omega
    have h10 : 1 ≤ (500 + delta - 1) / delta := (Nat.one_le_div_iff hdpos).mpr h9
    omega
  obtain ⟨m, rfl⟩ : ∃ m, n = m + 1 := ⟨n - 1, by omega⟩
  rw [uniformTimes_succ, acceptedCount_cons_accept _ _ _ (by rw [h500]; omega)]
  have hone : k - (k - 1) = 1 := by omega
  have harg : t0 + delta = t0 + (k - (k - 1)) * delta := by
    rw [hone, one_mul]
  rw [harg, acceptedCount_phase delta k hkd hk1 m (k - 1) t0 (by omega)]
  by_cases hm : m ≤ k - 1
  · rw [if_pos hm]
    have h2 : m + 1 - 1 = m := by omega
    rw [h2, Nat.div_eq_of_lt (by omega)]
  · rw [if_neg hm]
    have h1 : m - (k - 1) - 1 = m - k := by omega
    have h2 : m + 1 - 1 = m := by omega
    rw [h1, h2]
    have hdiv : m / k = (m - k) / k + 1 := by
      conv_lhs => rw [show m = m - k + k from by omega]
      rw [Nat.add_div_right _ hkpos]
    omega

/-- Claim C7, witness for the amended theorem: with creation at 0, first
call at 500 and spacing 300, six calls accept exactly
floor(5 / ceil(500/300)) + 1 = 3 broadcasts. -/
theorem C7_amended_witness :
    acceptedCount 0 (uniformTimes 500 300 6)
      = (6 - 1) / ((minIntervalMs + 300 - 1) / 300) + 1 :=
  C7_amended_rate_limit 0 500 300 6 (by decide) (by decide) (by decide) (by decide)

end RateLimiter

namespace SceneComms

/-- JavaScript `Map.set`: installs the binding for `k`, removing any
previous binding for the same key, so keys are never duplicated. -/
def alSet {κ α : Type} [BEq κ] (l : List (κ × α)) (k : κ) (v : α) : List (κ × α) :=
  (k, v) :: l.filter (fun p => !(p.1 == k))

/-- JavaScript `Map.get`: the value bound to `k`, if any. -/
def alGet {κ α : Type} [BEq κ] (l : List (κ × α)) (k : κ) : Option α :=
  (l.find? (fun p => p.1 == k)).map Prod.snd

/-- JavaScript `Map.delete`: removes the binding for `k`. -/
def alRemove {κ α : Type} [BEq κ] (l : List (κ × α)) (k : κ) : List (κ × α) :=
  l.filter (fun p => !(p.1 == k))

theorem alGet_alRemove_self {κ α : Type} [BEq κ] (l : List (κ × α)) (k : κ) :
    alGet (alRemove l k) k = none := by
  simp only [alGet, alRemove]
  rw [List.find?_eq_none.mpr]
  · rfl
  · intro x hx
    have h2 := (List.mem_filter.mp hx).2
    simp only [Bool.not_eq_true'] at h2
    simp [h2]

theorem alGet_alSet_self {κ α : Type} [BEq κ] [LawfulBEq κ] (l : List (κ × α))
    (k : κ) (v : α) : alGet (alSet l k v) k = some v := by
  simp [alGet, alSet]

/-- The events of `createAvatarCommunicationSystem` that touch the
tombstone channel (scene-comms.ts): `tick` is the controller's `update()`
incrementing `currentTick`; `deleteEntity` is the
`deletedEntities.set(entity, currentTick)` step of `removePlayerEntity`;
`getUpdates s` is subscription `s` pulling updates. -/
inductive SyncEvent where
  | tick
  | deleteEntity (e : Nat)
  | getUpdates (s : Nat)
  deriving Repr, DecidableEq

/-- State of the tombstone channel: the controller's `currentTick` and
`deletedEntities` map, each subscription's `lastDeleteTick` cursor, and —
as proof bookkeeping — the DELETE_ENTITY records each subscription has
received so far, each tagged with the tombstone tick it was emitted for
(on the wire the record carries only the entity id). -/
structure SyncState where
  currentTick : Int
  tombs : List (Nat × Int)
  cursors : Nat → Int
  outs : Nat → List (Nat × Int)

/-- Initial controller state: tick 0, no tombstones, and every
subscription's `lastDeleteTick` cursor at -1 with an empty output
stream (`createSubscription` initializes `lastDeleteTick = -1`). -/
def initialSync : SyncState :=
  { currentTick := 0, tombs := [], cursors := fun _ => -1, outs := fun _ => [] }

/-- The tombstones a `getUpdates` call emits: every entry of
`deletedEntities` whose tick exceeds the subscription's own
`lastDeleteTick` (scene-comms.ts lines 299-305). -/
def emittedNow (tombs : List (Nat × Int)) (cursor : Int) : List (Nat × Int) :=
  tombs.filter (fun p => cursor < p.2)

/-- One step of the tombstone channel. `getUpdates` appends the emitted
DELETE_ENTITY records to the calling subscription's stream and then sets
that subscription's `lastDeleteTick` to `currentTick`; the component-delta
dump that follows in the source touches neither `deletedEntities` nor any
`lastDeleteTick`. -/
def syncStep (st : SyncState) : SyncEvent → SyncState
  | .tick => { st with currentTick := st.currentTick + 1 }
  | .deleteEntity e => { st with tombs := alSet st.tombs e st.currentTick }
  | .getUpdates s =>
    { st with
      cursors := fun q => if q = s then st.currentTick else st.cursors q
      outs := fun q => if q = s then st.outs q ++ emittedNow st.tombs (st.cursors s)
        else st.outs q }

/-- Run of the tombstone channel from the initial state. -/
def syncRun (trace : List SyncEvent) : SyncState :=
  trace.foldl syncStep initialSync

/-- Events visible to subscription `s`: everything except other
subscriptions' `getUpdates` calls. -/
def keepForSub (s : Nat) : SyncEvent → Bool
  | .getUpdates q => q == s
  | _ => true

/-- Invariant of the tombstone channel: cursors never exceed the current
tick, every tombstone's tick is at most the current tick, the
`deletedEntities` map holds at most one entry per entity, every
subscription has received each tagged record at most once, and every
received record's tombstone tick is at most the receiving subscription's
cursor. -/
def SyncInv (st : SyncState) : Prop :=
  (∀ s, st.cursors s ≤ st.currentTick)
  ∧ (∀ e t, (e, t) ∈ st.tombs → t ≤ st.currentTick)
  ∧ (∀ e, (st.tombs.filter (fun p => p.1 == e)).length ≤ 1)
  ∧ (∀ s e t, (st.outs s).count (e, t) ≤ 1)
  ∧ (∀ s e t, (e, t) ∈ st.outs s → t ≤ st.cursors s)

theorem syncInv_init : SyncInv initialSync := by
  refine ⟨fun s => by simp [initialSync], fun e t h => by simp [initialSync] at h,
    fun e => by simp [initialSync], fun s e t => by simp [initialSync],
    fun s e t h => by simp [initialSync] at h⟩

theorem count_mem_tombs_le {tombs : List (Nat × Int)} {e : Nat} {t : Int}
    (h : ∀ e, (tombs.filter (fun p => p.1 == e)).length ≤ 1) :
    tombs.count (e, t) ≤ 1 := by
  calc tombs.count (e, t)
      = tombs.countP (· == (e, t)) := List.count_eq_countP _ _
    _ ≤ tombs.countP (fun p => p.1 == e) := by
        apply List.countP_mono_left
        intro x _ hx
        have : x = (e, t) := by simpa using hx
        simp [this]
    _ = (tombs.filter (fun p => p.1 == e)).length := by
        rw [List.countP_eq_length_filter]
    _ ≤ 1 := h e

theorem syncInv_step (st : SyncState) (ev : SyncEvent) (h : SyncInv st) :
    SyncInv (syncStep st ev) := by
  obtain ⟨h1, h2, h3, h4, h5⟩ := h
  cases ev with
  | tick =>
    refine ⟨fun s => ?_, fun e t ht => ?_, h3, h4, h5⟩
    · simp only [syncStep]
      have := h1 s
      omega
    · simp only [syncStep] at ht ⊢
      have := h2 e t ht
      omega
  | deleteEntity e0 =>
    refine ⟨h1, fun e t ht => ?_, fun e => ?_, h4, h5⟩
    · simp only [syncStep] at ht ⊢
      simp only [alSet, List.mem_cons, List.mem_filter] at ht
      rcases ht with heq | ⟨hmem, -⟩
      · rw [Prod.mk.injEq] at heq
        omega
      · exact h2 e t hmem
    · simp only [syncStep, alSet]
      by_cases he : e0 = e
      · subst he
        rw [List.filter_cons_of_pos (by simp)]
        have hnil : (st.tombs.filter (fun p => !(p.1 == e0))).filter
            (fun p => p.1 == e0) = [] := by
          rw [List.filter_filter]
          apply List.filter_eq_nil_iff.mpr
          intro a _
          simp
        rw [hnil]
        simp
      · rw [List.filter_cons_of_neg (by simp [he])]
        calc ((st.tombs.filter (fun p => !(p.1 == e0))).filter
                (fun p => p.1 == e)).length
            ≤ (st.tombs.filter (fun p => p.1 == e)).length :=
              ((List.filter_sublist _).filter _).length_le
          _ ≤ 1 := h3 e
  | getUpdates s0 =>
    refine ⟨fun s => ?_, h2, h3, fun s e t => ?_, fun s e t hm => ?_⟩
    · by_cases hs : s = s0
      · subst hs
        simp [syncStep]
      · simp only [syncStep]
        simp only [if_neg hs]
        exact h1 s
    · by_cases hs : s = s0
      · subst hs
        simp only [syncStep, if_pos, List.count_append]
        by_cases hmem : (e, t) ∈ st.outs s
        · have hc : t ≤ st.cursors s := h5 s e t hmem
          have hz : (emittedNow st.tombs (st.cursors s)).count (e, t) = 0 := by
            apply List.count_eq_zero_of_not_mem
            intro hin
            simp only [emittedNow, List.mem_filter, decide_eq_true_eq] at hin
            omega
          have hout := h4 s e t
          omega
        · have hz : (st.outs s).count (e, t) = 0 :=
            List.count_eq_zero_of_not_mem hmem
          have hsub : (emittedNow st.tombs (st.cursors s)).count (e, t)
              ≤ st.tombs.count (e, t) :=
            (List.filter_sublist _).count_le _
          have hto := count_mem_tombs_le (e := e) (t := t) h3
          omega
      · simp only [syncStep]
        simp only [if_neg hs]
        exact h4 s e t
    · by_cases hs : s = s0
      · subst hs
        simp only [syncStep, if_pos] at hm ⊢
        rcases List.mem_append.mp hm with hold | hnew
        · have := h5 s e t hold
          have := h1 s
          omega
        · simp only [emittedNow, List.mem_filter] at hnew
          exact h2 e t hnew.1
      · simp only [syncStep] at hm ⊢
        simp only [if_neg hs] at hm ⊢
        exact h5 s e t hm

theorem syncInv_run_from (tr : List SyncEvent) (st : SyncState) (h : SyncInv st) :
    SyncInv (tr.foldl syncStep st) := by
  induction tr generalizing st with
  | nil => exact h
  | cons ev rest ih => exact ih _ (syncInv_step st ev h)

theorem sync_filter_agree (s : Nat) (tr : List SyncEvent) :
    ∀ st1 st2 : SyncState, st1.currentTick = st2.currentTick →
      st1.tombs = st2.tombs → st1.cursors s = st2.cursors s →
      st1.outs s = st2.outs s →
      (((tr.filter (keepForSub s)).foldl syncStep st1).currentTick
          = (tr.foldl syncStep st2).currentTick)
      ∧ (((tr.filter (keepForSub s)).foldl syncStep st1).tombs
          = (tr.foldl syncStep st2).tombs)
      ∧ (((tr.filter (keepForSub s)).foldl syncStep st1).cursors s
          = (tr.foldl syncStep st2).cursors s)
      ∧ (((tr.filter (keepForSub s)).foldl syncStep st1).outs s
          = (tr.foldl syncStep st2).outs s) := by
  induction tr with
  | nil =>
    intro st1 st2 e1 e2 e3 e4
    exact ⟨e1, e2, e3, e4⟩
  | cons ev rest ih =>
    intro st1 st2 e1 e2 e3 e4
    cases ev with
    | tick =>
      rw [List.filter_cons_of_pos (by simp [keepForSub])]
      simp only [List.foldl_cons]
      exact ih _ _ (by simp [syncStep, e1]) (by simp [syncStep, e2])
        (by simp [syncStep, e3]) (by simp [syncStep, e4])
    | deleteEntity e0 =>
      rw [List.filter_cons_of_pos (by simp [keepForSub])]
      simp only [List.foldl_cons]
      exact ih _ _ (by simp [syncStep, e1]) (by simp [syncStep, e1, e2])
        (by simp [syncStep, e3]) (by simp [syncStep, e4])
    | getUpdates q =>
      by_cases hq : q = s
      · subst hq
        rw [List.filter_cons_of_pos (by simp [keepForSub])]
        simp only [List.foldl_cons]
        exact ih _ _ (by simp [syncStep, e1]) (by simp [syncStep, e2])
          (by simp [syncStep, e1]) (by simp [syncStep, e2, e3, e4])
      · rw [List.filter_cons_of_neg (by simp [keepForSub, hq])]
        simp only [List.foldl_cons]
        refine ih st1 _ (by simp [syncStep, e1]) (by simp [syncStep, e2]) ?_ ?_
        · simp only [syncStep]
          rw [if_neg (by exact fun h => hq h.symm)]
          exact e3
        · simp only [syncStep]
          rw [if_neg (by exact fun h => hq h.symm)]
          exact e4

/-- Claim C6: for every subscription created by `createSubscription` and
every entity deletion event (an (entity, tick) tombstone), across any
sequence of `getUpdates` calls interleaved with ticks and deletions, that
subscription's output stream contains the DELETE_ENTITY record for that
tombstone at most once; and its content and cursor are governed by that
subscription's own `lastDeleteTick`, unaffected by removing every other
subscription's `getUpdates` calls from the trace. -/
theorem C6_tombstone_single_shot (trace : List SyncEvent) (s e : Nat) (t : Int) :
    ((syncRun trace).outs s).count (e, t) ≤ 1
    ∧ (syncRun (trace.filter (keepForSub s))).outs s = (syncRun trace).outs s
    ∧ (syncRun (trace.filter (keepForSub s))).cursors s = (syncRun trace).cursors s := by
  refine ⟨?_, ?_, ?_⟩
  · exact (syncInv_run_from trace initialSync syncInv_init).2.2.2.1 s e t
  · exact (sync_filter_agree s trace initialSync initialSync rfl rfl rfl rfl).2.2.2
  · exact (sync_filter_agree s trace initialSync initialSync rfl rfl rfl rfl).2.2.1

/-- Sanity evaluation of the tombstone channel on a concrete trace: after
a tick, a deletion of entity 40 and two consecutive `getUpdates` pulls by
subscription 0, the record for the tombstone (40, tick 1) is delivered
exactly once, and subscription 1 (which never pulled) still has an empty
stream and cursor -1. -/
theorem syncRun_concrete_example :
    (syncRun [.tick, .deleteEntity 40, .getUpdates 0, .getUpdates 0]).outs 0
        = [(40, 1)]
    ∧ (syncRun [.tick, .deleteEntity 40, .getUpdates 0, .getUpdates 0]).outs 1 = []
    ∧ (syncRun [.tick, .deleteEntity 40, .getUpdates 0, .getUpdates 0]).cursors 1 = -1 := by
  refine ⟨?_, ?_, ?_⟩ <;> rfl

/-- Modelled from the spec: the Entity Allocator (`playerEntityManager`
from `player-entity-manager`, which is not under src/). Per §2/§3 it
assigns a bounded integer id space — the remote-peer range [32, 256) — to
peers keyed by peer address, where a peer's address is a canonical
lower-cased string with case-insensitive identity, so every operation
canonicalizes its address argument. Only the allocation table is state;
an entity is free exactly when no address is bound to it. -/
structure PlayerEntityManager where
  allocations : List (String × Nat)
  deriving Repr, DecidableEq

/-- Modelled from the spec: lookup of the entity allocated to an address
(`playerEntityManager.getEntityForAddress`). -/
def pemGet (m : PlayerEntityManager) (address : String) : Option Nat :=
  alGet m.allocations (jsToLower address)

/-- Modelled from the spec: allocation of a fresh entity id from [32, 256)
for an address (`playerEntityManager.allocateEntityForPlayer`); returns
`none` when the range is exhausted. -/
def pemAllocate (m : PlayerEntityManager) (address : String) :
    Option Nat × PlayerEntityManager :=
  let used := m.allocations.map Prod.snd
  match (List.range' 32 224).find? (fun e => !(used.contains e)) with
  | some e => (some e, ⟨alSet m.allocations (jsToLower address) e⟩)
  | none => (none, m)

/-- Modelled from the spec: freeing the entity bound to an address
(`playerEntityManager.freeEntityForPlayer`), making it eligible for reuse
by a different address. -/
def pemFree (m : PlayerEntityManager) (address : String) : PlayerEntityManager :=
  ⟨alRemove m.allocations (jsToLower address)⟩

/-- Modelled from the spec: `playerEntityManager.clear()` empties the
allocation table. -/
def pemClear : PlayerEntityManager := ⟨[]⟩

/-- State owned by `createAvatarCommunicationSystem` (scene-comms.ts): the
four tracked LWW component stores (abstracted to their per-entity data,
values opaque), the tombstone map and tick, the profile cache (snapshot
abstracted to its version), and the entity allocator. -/
structure AvatarState where
  playerIdentityData : List (Nat × Nat)
  avatarBase : List (Nat × Nat)
  avatarEquippedData : List (Nat × Nat)
  transform : List (Nat × Nat)
  deletedEntities : List (Nat × Int)
  currentTick : Int
  profileCache : List (String × Int)
  pem : PlayerEntityManager
  deriving Repr, DecidableEq

/-- Model of `normalizeAddress` (scene-comms.ts line 68-70). -/
def normalizeAddress (address : String) : String := jsToLower address

/-- The externally visible actions `removePlayerEntity` performs, in
order: one `entityDeleted(entity, true)` per tracked store (store indices
0-3 for PlayerIdentityData, AvatarBase, AvatarEquippedData, Transform),
the tombstone record, the allocator free, and the profile-cache
eviction. -/
inductive RemoveAction where
  | markComponentDeleted (store : Nat) (entity : Nat)
  | tombstoneEntity (entity : Nat) (tick : Int)
  | freeEntity (address : String)
  | evictProfile (address : String)
  deriving Repr, DecidableEq

/-- Action sequence of `removePlayerEntity` (scene-comms.ts lines
151-165) in source order: component deletions first, then the tombstone,
then the allocator free, then the cache eviction of the normalized
address. -/
def removePlayerEntityActions (entity : Nat) (address : String) (tick : Int) :
    List RemoveAction :=
  [ .markComponentDeleted 0 entity, .markComponentDeleted 1 entity,
    .markComponentDeleted 2 entity, .markComponentDeleted 3 entity,
    .tombstoneEntity entity tick, .freeEntity address,
    .evictProfile (normalizeAddress address) ]

/-- State effect of `removePlayerEntity` (scene-comms.ts lines 151-165):
`entityDeleted(entity, true)` drops each store's data for the entity
immediately, the entity is tombstoned at the current tick, the allocator
binding is freed, and the profile cache entry of the normalized address is
evicted. -/
def removePlayerEntity (st : AvatarState) (entity : Nat) (address : String) :
    AvatarState :=
  { st with
    playerIdentityData := alRemove st.playerIdentityData entity
    avatarBase := alRemove st.avatarBase entity
    avatarEquippedData := alRemove st.avatarEquippedData entity
    transform := alRemove st.transform entity
    deletedEntities := alSet st.deletedEntities entity st.currentTick
    pem := pemFree st.pem address
    profileCache := alRemove st.profileCache (normalizeAddress address) }

/-- Model of `handlePeerDisconnected` (scene-comms.ts lines 209-215):
look the sender up without allocating (`findPlayerEntityByAddress` with
`createIfMissing = false`, which normalizes the address first) and remove
the entity when one is tracked. -/
def handlePeerDisconnected (st : AvatarState) (address : String) : AvatarState :=
  match pemGet st.pem address with
  | none => st
  | some entity => removePlayerEntity st entity address

/-- The precedence property of the action list: every component-deletion
action occurs strictly before any allocator-free action. -/
def deletesPrecedeFree (l : List RemoveAction) : Prop :=
  ∀ i j, (∃ c ent, l.get? i = some (.markComponentDeleted c ent)) →
    (∃ a, l.get? j = some (.freeEntity a)) → i < j

theorem removeActions_deletes_precede_free (entity : Nat) (address : String)
    (tick : Int) : deletesPrecedeFree (removePlayerEntityActions entity address tick) := by
  intro i j hi hj
  obtain ⟨c, ent, hi⟩ := hi
  obtain ⟨a, hj⟩ := hj
  have hj5 : j = 5 := by
    rcases j with _ | _ | _ | _ | _ | _ | _ | j <;>
      (simp [removePlayerEntityActions] at hj; try rfl)
  have hi3 : i ≤ 3 := by
    rcases i with _ | _ | _ | _ | _ | _ | _ | i <;>
      (simp [removePlayerEntityActions] at hi; try omega)
  omega

/-- Claim C9: for every tracked peer, handling its disconnect event marks
the entity deleted (with immediate data clearing) in all four tracked
component stores before the entity is freed back to the allocator for
reuse (assuming the spec's invariant that at most one address owns the
entity); the entity is tombstoned at the current tick; and the profile
cache entry for the normalized address is evicted. -/
theorem C9_peer_disconnect (st : AvatarState) (address : String) (entity : Nat)
    (htracked : pemGet st.pem address = some entity)
    (hown : ∀ p ∈ st.pem.allocations, p.2 = entity → p.1 = jsToLower address) :
    alGet (handlePeerDisconnected st address).playerIdentityData entity = none
    ∧ alGet (handlePeerDisconnected st address).avatarBase entity = none
    ∧ alGet (handlePeerDisconnected st address).avatarEquippedData entity = none
    ∧ alGet (handlePeerDisconnected st address).transform entity = none
    ∧ alGet (handlePeerDisconnected st address).deletedEntities entity
        = some st.currentTick
    ∧ pemGet (handlePeerDisconnected st address).pem address = none
    ∧ entity ∉ (handlePeerDisconnected st address).pem.allocations.map Prod.snd
    ∧ alGet (handlePeerDisconnected st address).profileCache
        (normalizeAddress address) = none
    ∧ deletesPrecedeFree (removePlayerEntityActions entity address st.currentTick) := by
  simp only [handlePeerDisconnected, htracked, removePlayerEntity]
  refine ⟨alGet_alRemove_self _ _, alGet_alRemove_self _ _, alGet_alRemove_self _ _,
    alGet_alRemove_self _ _, alGet_alSet_self _ _ _, ?_, ?_,
    alGet_alRemove_self _ _, removeActions_deletes_precede_free _ _ _⟩
  · simp only [pemFree, pemGet]
    exact alGet_alRemove_self _ _
  · simp only [pemFree, alRemove]
    intro hmem
    rw [List.mem_map] at hmem
    obtain ⟨p, hp, hpe⟩ := hmem
    have hp1 := List.mem_filter.mp hp
    have hkey := hown p hp1.1 hpe
    have hneq := hp1.2
    rw [hkey] at hneq
    simp at hneq

/-- Witness state for claim C9: one tracked peer at address "0xAB"
(canonically "0xab") owning entity 32, with data in all four stores and a
cached profile. -/
def disconnectWitnessState : AvatarState :=
  { playerIdentityData := [(32, 1)]
    avatarBase := [(32, 2)]
    avatarEquippedData := [(32, 3)]
    transform := [(32, 4)]
    deletedEntities := []
    currentTick := 2
    profileCache := [("0xab", 7)]
    pem := ⟨[("0xab", 32)]⟩ }

/-- Claim C9, witness: disconnecting the tracked peer "0xAB" clears its
component data, tombstones entity 32 at tick 2, frees the allocator
binding and evicts the cache entry. -/
theorem C9_peer_disconnect_witness :
    alGet (handlePeerDisconnected disconnectWitnessState "0xAB").playerIdentityData 32 = none
    ∧ alGet (handlePeerDisconnected disconnectWitnessState "0xAB").deletedEntities 32 = some 2
    ∧ pemGet (handlePeerDisconnected disconnectWitnessState "0xAB").pem "0xAB" = none
    ∧ alGet (handlePeerDisconnected disconnectWitnessState "0xAB").profileCache
        (normalizeAddress "0xAB") = none := by
  have h := C9_peer_disconnect disconnectWitnessState "0xAB" 32 (by decide) (by decide)
  exact ⟨h.1, h.2.2.2.2.1, h.2.2.2.2.2.1, h.2.2.2.2.2.2.2.1⟩

/-- Per-subscription cursor state returned by `createSubscription`
(scene-comms.ts lines 283-314): the `state` map holding one last-seen
revision per tracked component store (indices 0-3, initialized to -1) and
the `lastDeleteTick` tombstone cursor (initialized to -1). -/
structure Subscription where
  componentCursors : List (Nat × Int)
  lastDeleteTick : Int
  deriving Repr, DecidableEq

/-- A freshly created subscription. -/
def createSubscriptionState : Subscription :=
  ⟨[(0, -1), (1, -1), (2, -1), (3, -1)], -1⟩

/-- Model of the `dispose()` closure of `createSubscription` (scene-comms.ts
lines 291-297): clears the subscription's own cursor map AND the
controller-wide player entity manager, profile cache and tombstone map;
the component stores themselves and the tick are left as they are. -/
def subscriptionDispose (st : AvatarState) (sub : Subscription) :
    AvatarState × Subscription :=
  ({ st with pem := pemClear, profileCache := [], deletedEntities := [] },
   { sub with componentCursors := [] })

/-- Claim C10: calling `dispose()` on any single subscription clears the
controller-wide shared state — the player entity allocation table, the
profile cache and the tombstone map — and not merely that subscription's
own cursor state, so after any one subscription is disposed every other
subscription and the controller observe empty entity, profile-cache and
tombstone tables (while the component stores and tick are untouched). -/
theorem C10_dispose_clears_shared_state (st : AvatarState) (sub : Subscription) :
    (subscriptionDispose st sub).1.pem.allocations = []
    ∧ (subscriptionDispose st sub).1.profileCache = []
    ∧ (subscriptionDispose st sub).1.deletedEntities = []
    ∧ (subscriptionDispose st sub).2.componentCursors = []
    ∧ (subscriptionDispose st sub).1.playerIdentityData = st.playerIdentityData
    ∧ (subscriptionDispose st sub).1.avatarBase = st.avatarBase
    ∧ (subscriptionDispose st sub).1.avatarEquippedData = st.avatarEquippedData
    ∧ (subscriptionDispose st sub).1.transform = st.transform
    ∧ (subscriptionDispose st sub).1.currentTick = st.currentTick
    ∧ (subscriptionDispose st sub).2.lastDeleteTick = sub.lastDeleteTick := by
  refine ⟨rfl, rfl, rfl, rfl, rfl, rfl, rfl, rfl, rfl, rfl⟩

/-- Per-address view of the profile announcement handling of
`createAvatarCommunicationSystem` (scene-comms.ts lines 93-114):
`cacheVersion` is `profileCache.get(address)?.version`; `pending` lists
the announced versions of the `fetchProfileFromCatalyst` calls currently
in flight for the address (each announcement that passed the cache check
records its own `announcedVersion`); `appliedVersion` is the version of
the profile last written to the identity/appearance/equipped components by
`updatePlayerComponents`. -/
structure ProfileState where
  cacheVersion : Option Int
  pending : List Int
  appliedVersion : Option Int
  deriving Repr, DecidableEq

/-- Events of the profile machinery: `announce v` runs
`handleProfileVersionAnnouncement` up to its `await` (starting a fetch if
the announced version beats the cache); `completeOk i pv` resolves the
i-th in-flight fetch with a profile of version `pv`; `completeFail i`
rejects it (or resolves with no profile), which the handler's catch
swallows. -/
inductive ProfileEvent where
  | announce (v : Int)
  | completeOk (i : Nat) (pv : Int)
  | completeFail (i : Nat)
  deriving Repr, DecidableEq

/-- One step of the profile machinery, following
`handleProfileVersionAnnouncement`: an announcement fetches only when the
cache is absent or strictly older than the announced version; a completed
fetch is applied only when the fetched version is at least the fetch's own
announced version, in which case both the cache and the components are
updated to the fetched profile; failures change nothing. -/
def profileStep (st : ProfileState) : ProfileEvent → ProfileState
  | .announce v =>
    match st.cacheVersion with
    | none => { st with pending := st.pending ++ [v] }
    | some cv =>
      if cv < v then { st with pending := st.pending ++ [v] } else st
  | .completeOk i pv =>
    match st.pending[i]? with
    | none => st
    | some announced =>
      if announced ≤ pv then
        { st with pending := st.pending.eraseIdx i
                  cacheVersion := some pv
                  appliedVersion := some pv }
      else { st with pending := st.pending.eraseIdx i }
  | .completeFail i => { st with pending := st.pending.eraseIdx i }

/-- Fresh per-address profile state: nothing cached, nothing in flight. -/
def initialProfile : ProfileState := ⟨none, [], none⟩

/-- Run of the profile machinery from a given state. -/
def profileRunFrom (st : ProfileState) (tr : List ProfileEvent) : ProfileState :=
  tr.foldl profileStep st

/-- Run of the profile machinery from the fresh state. -/
def profileRun (tr : List ProfileEvent) : ProfileState :=
  profileRunFrom initialProfile tr

/-- Whether a trace is sequential: every announcement is handled only
when no fetch is in flight (each fetch completes before the next
announcement is processed). -/
def seqOk : ProfileState → List ProfileEvent → Bool
  | _, [] => true
  | st, e :: rest =>
    (match e with
     | .announce _ => st.pending.isEmpty
     | _ => true) && seqOk (profileStep st e) rest

/-- Order on optional cache versions: an absent cache is below
everything; present caches compare by version. -/
def verLe : Option Int → Option Int → Prop
  | none, _ => True
  | some _, none => False
  | some x, some y => x ≤ y

theorem verLe_refl (a : Option Int) : verLe a a := by
  cases a <;> simp [verLe]

theorem verLe_trans {a b c : Option Int} (h1 : verLe a b) (h2 : verLe b c) :
    verLe a c := by
  cases a <;> cases b <;> cases c <;> (simp [verLe] at *; try omega)

/-- Invariant of sequential runs: at most one fetch in flight, and every
in-flight fetch's announced version strictly beats the cache. -/
def ProfileInv (st : ProfileState) : Prop :=
  st.pending.length ≤ 1
  ∧ ∀ a ∈ st.pending, ∀ cv, st.cacheVersion = some cv → cv < a

theorem profileInv_initial : ProfileInv initialProfile := by
  refine ⟨by simp [initialProfile], fun a ha => ?_⟩
  simp [initialProfile] at ha

theorem profile_mono_run (tr : List ProfileEvent) :
    ∀ st, ProfileInv st → seqOk st tr = true →
      verLe st.cacheVersion (profileRunFrom st tr).cacheVersion
        ∧ ProfileInv (profileRunFrom st tr) := by
  induction tr with
  | nil =>
    intro st hinv _
    exact ⟨verLe_refl _, hinv⟩
  | cons ev rest ih =>
    intro st hinv hseq
    simp only [seqOk, Bool.and_eq_true] at hseq
    obtain ⟨hguard, hrest⟩ := hseq
    have hfold : profileRunFrom st (ev :: rest)
        = profileRunFrom (profileStep st ev) rest := rfl
    rw [hfold]
    have hstep : verLe st.cacheVersion (profileStep st ev).cacheVersion
        ∧ ProfileInv (profileStep st ev) := by
      cases ev with
      | announce v =>
        have hpend : st.pending = [] := by
          cases hp : st.pending with
          | nil => rfl
          | cons a l =>
            rw [hp] at hguard
            simp [List.isEmpty] at hguard
        cases hcv : st.cacheVersion with
        | none =>
          refine ⟨?_, ?_, ?_⟩
          · simp [profileStep, hcv, verLe]
          · simp [profileStep, hcv, hpend]
          · intro a ha cv hcv'
            simp only [profileStep, hcv] at hcv'
            simp [hcv] at hcv'
        | some cv =>
          by_cases hlt : cv < v
          · refine ⟨?_, ?_, ?_⟩
            · simp [profileStep, hcv, hlt, verLe]
            · simp [profileStep, hcv, hlt, hpend]
            · intro a ha cv' hcv'
              simp only [profileStep, hcv, if_pos hlt] at ha hcv'
              rw [hpend] at ha
              simp at ha
              have h9 : cv' = cv := by
                simpa using hcv'.symm
              omega
          · have hnoop : profileStep st (.announce v) = st := by
              simp [profileStep, hcv, hlt]
            rw [hnoop]
            refine ⟨?_, hinv⟩
            rw [hcv]
            exact verLe_refl _
      | completeOk i pv =>
        cases hget : st.pending[i]? with
        | none =>
          have hnoop : profileStep st (.completeOk i pv) = st := by
            simp [profileStep, hget]
          rw [hnoop]
          exact ⟨verLe_refl _, hinv⟩
        | some a =>
          obtain ⟨hilt, hia⟩ := List.getElem?_eq_some.mp hget
          have hmem : a ∈ st.pending := hia ▸ List.getElem_mem hilt
          have hlen1 : st.pending.length = 1 := by
            have := hinv.1
            omega
          obtain ⟨b, hb⟩ := List.length_eq_one.mp hlen1
          have hi0 : i = 0 := by
            rw [hb] at hilt
            simp at hilt
            exact hilt
          have hba : b = a := by
            rw [hb, hi0] at hget
            simpa using hget
          have herase : st.pending.eraseIdx i = [] := by
            rw [hb, hi0, hba]
            rfl
          by_cases hle : a ≤ pv
          · refine ⟨?_, ?_, ?_⟩
            · cases hcv : st.cacheVersion with
              | none => simp [profileStep, hget, hle, verLe]
              | some cv =>
                have hcva := hinv.2 a hmem cv hcv
                simp [profileStep, hget, hle, verLe]
                omega
            · simp [profileStep, hget, hle, herase]
            · intro b' hb' cv hcv
              simp only [profileStep, hget, if_pos hle] at hb'
              rw [herase] at hb'
              simp at hb'
          · refine ⟨?_, ?_, ?_⟩
            · simp [profileStep, hget, hle, verLe]
              exact verLe_refl _
            · simp [profileStep, hget, hle, herase]
            · intro b' hb' cv hcv
              simp only [profileStep, hget, if_neg hle] at hb'
              rw [herase] at hb'
              simp at hb'
      | completeFail i =>
        refine ⟨?_, ?_, ?_⟩
        · exact verLe_refl _
        · simp only [profileStep]
          have hs1 := (List.eraseIdx_sublist st.pending i).length_le
          have hs2 := hinv.1
          omega
        · intro a ha cv hcv
          simp only [profileStep] at ha hcv
          exact hinv.2 a ((List.eraseIdx_sublist st.pending i).subset ha) cv hcv
    have hrun := ih (profileStep st ev) hstep.2 hrest
    exact ⟨verLe_trans hstep.1 hrun.1, hrun.2⟩

theorem seqOk_append (l1 l2 : List ProfileEvent) :
    ∀ st, seqOk st (l1 ++ l2) = true →
      seqOk st l1 = true ∧ seqOk (profileRunFrom st l1) l2 = true := by
  induction l1 with
  | nil =>
    intro st h
    exact ⟨rfl, h⟩
  | cons ev rest ih =>
    intro st h
    simp only [List.cons_append, seqOk, Bool.and_eq_true] at h ⊢
    obtain ⟨hguard, htail⟩ := h
    have := ih (profileStep st ev) htail
    exact ⟨⟨hguard, this.1⟩, this.2⟩

/-- Claim C5, counterexample: across a sequence of announcements and fetch
completions for one address, the cached profile version CAN decrease. Two
announcements (versions 5 and 20) each start a fetch while nothing is
cached; the second fetch completes first with version 20 (cache := 20);
the first then completes with version 5, which passes the code's
`profile.version >= announcedVersion` check (5 ≥ 5) and overwrites the
cache back down to 5. -/
theorem C5_counterexample :
    (profileRun [.announce 5, .announce 20, .completeOk 1 20]).cacheVersion
        = some 20
    ∧ (profileRun [.announce 5, .announce 20, .completeOk 1 20,
        .completeOk 0 5]).cacheVersion = some 5
    ∧ (5 : Int) < 20 := by
  refine ⟨rfl, rfl, by decide⟩

/-- Claim C5, amended: each per-event behavior is as claimed — an
announcement not exceeding the cached version changes nothing, a fetch
returning a version below its own announced version leaves cache and
components unchanged, a fetch failure leaves them unchanged, and a fetched
profile with version at least the announced version replaces the cache and
updates the components — and the cached version never decreases PROVIDED
fetches do not overlap (each fetch completes before the next announcement
for the address is handled); with overlapping fetches the completion check
compares against its own announced version, not the current cache, and the
cache can move backwards. -/
theorem C5_amended_profile_version (tr more : List ProfileEvent)
    (hseq : seqOk initialProfile (tr ++ more) = true) :
    verLe (profileRun tr).cacheVersion (profileRun (tr ++ more)).cacheVersion
    ∧ (∀ st v cv, st.cacheVersion = some cv → v ≤ cv →
        profileStep st (.announce v) = st)
    ∧ (∀ st i pv a, st.pending[i]? = some a → pv < a →
        (profileStep st (.completeOk i pv)).cacheVersion = st.cacheVersion
          ∧ (profileStep st (.completeOk i pv)).appliedVersion = st.appliedVersion)
    ∧ (∀ st i, (profileStep st (.completeFail i)).cacheVersion = st.cacheVersion
        ∧ (profileStep st (.completeFail i)).appliedVersion = st.appliedVersion)
    ∧ (∀ st i pv a, st.pending[i]? = some a → a ≤ pv →
        (profileStep st (.completeOk i pv)).cacheVersion = some pv
          ∧ (profileStep st (.completeOk i pv)).appliedVersion = some pv) := by
  refine ⟨?_, ?_, ?_, ?_, ?_⟩
  · obtain ⟨h1, h2⟩ := seqOk_append tr more initialProfile hseq
    have hrun1 := profile_mono_run tr initialProfile profileInv_initial h1
    have hrun2 := profile_mono_run more (profileRunFrom initialProfile tr)
      hrun1.2 h2
    have hfold : profileRun (tr ++ more)
        = profileRunFrom (profileRunFrom initialProfile tr) more := by
      simp [profileRun, profileRunFrom, List.foldl_append]
    rw [hfold]
    exact hrun2.1
  · intro st v cv hcv hv
    simp [profileStep, hcv]
    omega
  · intro st i pv a hget hlt
    have hne : ¬ a ≤ pv := by omega
    exact ⟨by simp [profileStep, hget, hne], by simp [profileStep, hget, hne]⟩
  · intro st i
    exact ⟨by simp [profileStep], by simp [profileStep]⟩
  · intro st i pv a hget hle
    exact ⟨by simp [profileStep, hget, hle], by simp [profileStep, hget, hle]⟩

/-- Claim C5, witness for the amended theorem: a sequential trace —
announce version 5, fetch resolves with 7, announce 10, fetch resolves
with 10 — on which the cached version moves forward from 7 to 10. -/
theorem C5_amended_witness :
    verLe (profileRun [.announce 5, .completeOk 0 7]).cacheVersion
      (profileRun ([.announce 5, .completeOk 0 7]
        ++ [.announce 10, .completeOk 0 10])).cacheVersion :=
  (C5_amended_profile_version [.announce 5, .completeOk 0 7]
    [.announce 10, .completeOk 0 10] (by decide)).1

end SceneComms
